import Mathlib

/-!
Verification of the packet framing state machine and the whole-buffer
packet encoder/parser from `02_serial_communication.py`.

The embedding models Python byte values as `Nat` (byte streams are lists of
small naturals), `bytearray`s as `List Nat`, and the receiver object as a
structure carrying the four mutable attributes of `PacketReceiver`
(`state`, `length`, `data`, `packets`).  `feed` and `get_packets` are
translated statement-by-statement from the source.
-/

/-- Embedding of the `for b in bytes: crc ^= b` accumulation loops used by
`build_packet`, `parse_packet` and `PacketReceiver.feed` (starting from
`crc = 0`). -/
def xorAll (l : List Nat) : Nat := l.foldl Nat.xor 0

/-- Embedding of `build_packet(cmd, payload)`: builds
`[SYNC][LEN][CMD][PAYLOAD][CRC]` with `SYNC = 0xAA`,
`LEN = len(payload) + 1` and `CRC` the XOR of all bytes except the sync. -/
def build_packet (cmd : Nat) (payload : List Nat) : List Nat :=
  let length := payload.length + 1
  let packet := 0xAA :: length :: cmd :: payload
  packet ++ [xorAll (packet.drop 1)]

/-- Embedding of `parse_packet(data)`: returns `none` when the buffer is
shorter than 4 bytes, the sync byte is wrong, the declared length does not
fit, or the CRC over `data[1:-1]` differs from the final byte; otherwise
returns `(data[2], data[3:-1])`. -/
def parse_packet (data : List Nat) : Option (Nat × List Nat) :=
  if data.length < 4 then none
  else if data.getD 0 0 ≠ 0xAA then none
  else if data.length < data.getD 1 0 + 3 then none
  else if xorAll ((data.drop 1).dropLast) ≠ data.getLastD 0 then none
  else some (data.getD 2 0, (data.drop 3).dropLast)

/-- Embedding of the `RxState` enumeration. -/
inductive RxState where
  | WAIT_SYNC
  | WAIT_LENGTH
  | WAIT_DATA
  | WAIT_CRC
deriving DecidableEq

/-- Embedding of the `PacketReceiver` object: its four attributes. -/
structure PacketReceiver where
  state : RxState
  length : Nat
  data : List Nat
  packets : List (List Nat)
deriving DecidableEq

/-- Embedding of `PacketReceiver.__init__`. -/
def PacketReceiver.init : PacketReceiver :=
  { state := .WAIT_SYNC, length := 0, data := [], packets := [] }

/-- Embedding of `PacketReceiver.feed(byte)`, translated branch by branch
from the source.  In `WAIT_CRC` the checksum is the XOR of `data[1:-1]`
computed after the final byte has been appended. -/
def PacketReceiver.feed (r : PacketReceiver) (byte : Nat) : PacketReceiver :=
  match r.state with
  | .WAIT_SYNC =>
      if byte = 0xAA then
        { r with data := [byte], state := .WAIT_LENGTH }
      else r
  | .WAIT_LENGTH =>
      { r with length := byte, data := r.data ++ [byte], state := .WAIT_DATA }
  | .WAIT_DATA =>
      let d := r.data ++ [byte]
      if d.length = r.length + 2 then
        { r with data := d, state := .WAIT_CRC }
      else
        { r with data := d }
  | .WAIT_CRC =>
      let d := r.data ++ [byte]
      let crc := xorAll ((d.drop 1).dropLast)
      { r with data := d,
               packets := if crc = byte then r.packets ++ [d] else r.packets,
               state := .WAIT_SYNC }

/-- Feeding a whole byte sequence, one `feed` call per byte in order. -/
def PacketReceiver.feedAll (r : PacketReceiver) (bs : List Nat) : PacketReceiver :=
  bs.foldl PacketReceiver.feed r

/-- Embedding of `PacketReceiver.get_packets()` (the spec's `drain()`):
returns the accumulated packets together with the receiver after the
`self.packets = []` reset. -/
def PacketReceiver.get_packets (r : PacketReceiver) : List (List Nat) × PacketReceiver :=
  (r.packets, { r with packets := [] })

/-- Wire frame built from a payload per the spec's format
`[0xAA][LENGTH][PAYLOAD...][CHECKSUM]`, the frame construction that claim
C2 quantifies over. -/
def encodeFrame (p : List Nat) : List Nat :=
  0xAA :: p.length :: (p ++ [xorAll (p.length :: p)])

/-- A correctly checksummed wire frame per the spec's wire format:
sync byte, a length byte `L`, `L` payload bytes, and a final byte equal
to the XOR of the length byte and the payload bytes. -/
def validFrame (f : List Nat) : Prop :=
  ∃ L p, p.length = L ∧ f = 0xAA :: L :: (p ++ [xorAll (L :: p)])

/-- Well-formedness of a queued frame: starts with the sync byte, has
total size `LENGTH + 3`, and its final byte is the XOR of everything
between the sync byte and itself. -/
def wfFrame (f : List Nat) : Prop :=
  f.getD 0 0 = 0xAA ∧
  f.length = f.getD 1 0 + 3 ∧
  f.getLastD 0 = xorAll ((f.drop 1).dropLast)

/-- Receiver invariant: all queued packets are well-formed frames and the
accumulator has the shape the current state expects. -/
def PacketReceiver.Inv (r : PacketReceiver) : Prop :=
  (∀ f ∈ r.packets, wfFrame f) ∧
  (r.state = .WAIT_LENGTH → r.data = [0xAA]) ∧
  (r.state = .WAIT_DATA → ∃ rest, r.data = 0xAA :: r.length :: rest) ∧
  (r.state = .WAIT_CRC → ∃ rest, r.data = 0xAA :: r.length :: rest ∧ rest.length = r.length)

theorem PacketReceiver.feedAll_nil (r : PacketReceiver) : r.feedAll [] = r := rfl

theorem PacketReceiver.feedAll_cons (r : PacketReceiver) (b : Nat) (bs : List Nat) :
    r.feedAll (b :: bs) = (r.feed b).feedAll bs := rfl

theorem PacketReceiver.feedAll_append (r : PacketReceiver) (xs ys : List Nat) :
    r.feedAll (xs ++ ys) = (r.feedAll xs).feedAll ys := by
  simp [feedAll, List.foldl_append]

theorem PacketReceiver.feed_nonsync (r : PacketReceiver) (b : Nat)
    (hs : r.state = .WAIT_SYNC) (hb : b ≠ 0xAA) : r.feed b = r := by
  simp [feed, hs, hb]

theorem PacketReceiver.feedAll_nonsync (r : PacketReceiver) (ns : List Nat)
    (hs : r.state = .WAIT_SYNC) (hn : ∀ b ∈ ns, b ≠ 0xAA) : r.feedAll ns = r := by
  induction ns with
  | nil => rfl
  | cons b tl ih =>
      rw [feedAll_cons, feed_nonsync r b hs (hn b (by simp))]
      exact ih (fun x hx => hn x (by simp [hx]))

theorem PacketReceiver.feedAll_data (r : PacketReceiver) (p : List Nat)
    (hs : r.state = .WAIT_DATA)
    (hlen : r.data.length + p.length = r.length + 2) (hne : p ≠ []) :
    r.feedAll p = { r with data := r.data ++ p, state := .WAIT_CRC } := by
  induction p generalizing r with
  | nil => exact absurd rfl hne
  | cons b tl ih =>
      rw [feedAll_cons]
      cases tl with
      | nil =>
          have hl : (r.data ++ [b]).length = r.length + 2 := by
            simp only [List.length_append, List.length_cons, List.length_nil] at hlen ⊢
            omega
          have hstep : r.feed b = { r with data := r.data ++ [b], state := .WAIT_CRC } := by
            simp [feed, hs, hl]
          rw [hstep, feedAll_nil]
      | cons b' tl' =>
          have hl : ¬ (r.data.length = r.length + 1) := by
            simp only [List.length_append, List.length_cons, List.length_nil] at hlen
            omega
          have hstep : r.feed b = { r with data := r.data ++ [b] } := by
            simp [feed, hs, hl]
          have hlen' : ({ r with data := r.data ++ [b] } : PacketReceiver).data.length
              + (b' :: tl').length
              = ({ r with data := r.data ++ [b] } : PacketReceiver).length + 2 := by
            simp only [List.length_append, List.length_cons, List.length_nil] at hlen ⊢
            omega
          rw [hstep, ih { r with data := r.data ++ [b] } hs hlen' (by simp)]
          simp

theorem PacketReceiver.feedAll_frame (r : PacketReceiver) (L c : Nat) (p : List Nat)
    (hs : r.state = .WAIT_SYNC) (hp : p.length = L) (hL : 1 ≤ L) :
    r.feedAll (0xAA :: L :: (p ++ [c])) =
      { state := .WAIT_SYNC, length := L, data := 0xAA :: L :: (p ++ [c]),
        packets := if xorAll (L :: p) = c then r.packets ++ [0xAA :: L :: (p ++ [c])]
          else r.packets } := by
  rw [feedAll_cons, feedAll_cons]
  have h1 : r.feed 0xAA = { r with data := [0xAA], state := .WAIT_LENGTH } := by
    simp [feed, hs]
  have h2 : ({ r with data := [0xAA], state := .WAIT_LENGTH } : PacketReceiver).feed L
      = { r with length := L, data := [0xAA, L], state := .WAIT_DATA } := by
    simp [feed]
  rw [h1, h2, feedAll_append,
    feedAll_data { r with length := L, data := [0xAA, L], state := .WAIT_DATA } p rfl
      (by simp [hp]; omega) (by intro h; rw [h] at hp; simp at hp; omega),
    feedAll_cons, feedAll_nil]
  have hdl : (L :: (p ++ [c])).dropLast = L :: p := by
    rw [show L :: (p ++ [c]) = (L :: p) ++ [c] from by simp]
    exact List.dropLast_concat
  simp [feed, hdl]

theorem PacketReceiver.Inv_init : PacketReceiver.init.Inv := by
  refine ⟨?_, ?_, ?_, ?_⟩ <;> simp [init]

theorem PacketReceiver.Inv_feed {r : PacketReceiver} (h : r.Inv) (b : Nat) :
    (r.feed b).Inv := by
  obtain ⟨hpk, hwl, hwd, hwc⟩ := h
  cases hst : r.state with
  | WAIT_SYNC =>
      by_cases hb : b = 0xAA
      · have hfe : r.feed b = { r with data := [b], state := .WAIT_LENGTH } := by
          simp [feed, hst, hb]
        rw [hfe]
        exact ⟨hpk, by simp [hb], by simp, by simp⟩
      · rw [feed_nonsync r b hst hb]
        exact ⟨hpk, hwl, hwd, hwc⟩
  | WAIT_LENGTH =>
      have hd := hwl hst
      have hfe : r.feed b = { r with length := b, data := r.data ++ [b], state := .WAIT_DATA } := by
        simp [feed, hst]
      rw [hfe]
      refine ⟨hpk, by simp, ?_, by simp⟩
      intro _
      exact ⟨[], by simp [hd]⟩
  | WAIT_DATA =>
      obtain ⟨rest, hd⟩ := hwd hst
      by_cases hl : r.data.length = r.length + 1
      · have hfe : r.feed b = { r with data := r.data ++ [b], state := .WAIT_CRC } := by
          simp [feed, hst, hl]
        rw [hfe]
        refine ⟨hpk, by simp, by simp, ?_⟩
        intro _
        refine ⟨rest ++ [b], by simp [hd], ?_⟩
        rw [hd] at hl
        simp at hl ⊢
        omega
      · have hfe : r.feed b = { r with data := r.data ++ [b] } := by
          simp [feed, hst, hl]
        rw [hfe]
        refine ⟨hpk, by simp [hst], ?_, by simp [hst]⟩
        intro _
        exact ⟨rest ++ [b], by simp [hd]⟩
  | WAIT_CRC =>
      obtain ⟨rest, hd, hrl⟩ := hwc hst
      by_cases hc : xorAll ((r.data ++ [b]).tail.dropLast) = b
      · have hfe : r.feed b = { r with state := .WAIT_SYNC, data := r.data ++ [b], packets := r.packets ++ [r.data ++ [b]] } := by
          simp [feed, hst, hc]
        rw [hfe]
        refine ⟨?_, by simp, by simp, by simp⟩
        intro f hf
        rcases List.mem_append.1 hf with hf | hf
        · exact hpk f hf
        · have hfd : f = r.data ++ [b] := by simpa using hf
          rw [hfd]
          refine ⟨by simp [hd], ?_, ?_⟩
          · rw [hd]
            simp [hrl]
          · rw [List.drop_one, hc]
            simp
      · have hfe : r.feed b = { r with data := r.data ++ [b], state := .WAIT_SYNC } := by
          simp [feed, hst, hc]
        rw [hfe]
        exact ⟨hpk, by simp, by simp, by simp⟩

theorem PacketReceiver.Inv_feedAll {r : PacketReceiver} (h : r.Inv) (bs : List Nat) :
    (r.feedAll bs).Inv := by
  induction bs generalizing r with
  | nil => exact h
  | cons b tl ih => exact feedAll_cons r b tl ▸ ih (Inv_feed h b)

/-- Every packet in the queue of a receiver reached from a fresh receiver
by feeding bytes is a well-formed frame. -/
theorem PacketReceiver.mem_packets_wf (bs : List Nat) (f : List Nat)
    (hf : f ∈ (PacketReceiver.init.feedAll bs).packets) : wfFrame f :=
  (Inv_feedAll Inv_init bs).1 f hf

theorem PacketReceiver.feed_split (s : RxState) (n : Nat) (d : List Nat)
    (P : List (List Nat)) (b : Nat) :
    (PacketReceiver.mk s n d P).feed b
      = { (PacketReceiver.mk s n d []).feed b with
          packets := P ++ ((PacketReceiver.mk s n d []).feed b).packets } := by
  cases s <;> simp [feed] <;> split_ifs <;> simp

theorem PacketReceiver.feedAll_split (s : RxState) (n : Nat) (d : List Nat)
    (P : List (List Nat)) (bs : List Nat) :
    (PacketReceiver.mk s n d P).feedAll bs
      = { (PacketReceiver.mk s n d []).feedAll bs with
          packets := P ++ ((PacketReceiver.mk s n d []).feedAll bs).packets } := by
  induction bs generalizing s n d P with
  | nil => simp [feedAll_nil]
  | cons b tl ih =>
      rw [feedAll_cons, feed_split]
      cases hE : (PacketReceiver.mk s n d []).feed b with
      | mk s1 n1 d1 pk1 =>
          rw [feedAll_cons, hE]
          simp only []
          rw [ih s1 n1 d1 (P ++ pk1), ih s1 n1 d1 pk1]
          simp

theorem frame_getLastD (x L c : Nat) (p : List Nat) :
    (x :: L :: (p ++ [c])).getLastD 0 = c := by
  rw [show x :: L :: (p ++ [c]) = (x :: L :: p) ++ [c] from by simp,
    List.getLastD_concat]

theorem frame_mid (x L c : Nat) (p : List Nat) :
    ((x :: L :: (p ++ [c])).drop 1).dropLast = L :: p := by
  have h : (x :: L :: (p ++ [c])).drop 1 = (L :: p) ++ [c] := by simp
  rw [h, List.dropLast_concat]

theorem frame_mid2 (x L m c : Nat) (p : List Nat) :
    ((x :: L :: m :: (p ++ [c])).drop 1).dropLast = L :: m :: p := by
  rw [show (x :: L :: m :: (p ++ [c])).drop 1 = (L :: m :: p) ++ [c] from by simp,
    List.dropLast_concat]

theorem frame_getLastD2 (x L m c : Nat) (p : List Nat) :
    (x :: L :: m :: (p ++ [c])).getLastD 0 = c := by
  rw [show x :: L :: m :: (p ++ [c]) = (x :: L :: m :: p) ++ [c] from by simp,
    List.getLastD_concat]

/-- Claim C1 counterexample: feeding the zero-length frame
`0xAA 0x00 0x00` to a fresh receiver and draining does NOT yield the frame
`[0xAA, 0x00, 0x00]`. -/
theorem zero_length_frame_cex :
    ¬ ((PacketReceiver.init.feedAll [0xAA, 0x00, 0x00]).get_packets.1
        = [[0xAA, 0x00, 0x00]]) := by decide

/-- Claim C1 (amended): feeding the three bytes `0xAA 0x00 0x00` to a fresh
receiver and draining yields no frame at all; with `LENGTH = 0` the
completion test `len(data) == length + 2` is checked only after a further
byte has been appended, so it can never succeed and the machine is left in
`WAIT_DATA`. -/
theorem zero_length_frame_stuck :
    (PacketReceiver.init.feedAll [0xAA, 0x00, 0x00]).get_packets.1 = [] ∧
    (PacketReceiver.init.feedAll [0xAA, 0x00, 0x00]).state = .WAIT_DATA := by decide

/-- Claim C2 counterexample: the round trip fails at the empty payload,
whose wire frame is the zero-length frame `[0xAA, 0x00, 0x00]`. -/
theorem round_trip_cex :
    ¬ ((PacketReceiver.init.feedAll (encodeFrame [])).get_packets.1
        = [encodeFrame []]) := by decide

/-- Claim C2 (amended): for every payload `p` with `1 <= len(p) <= 255`,
feeding every byte of the wire frame of `p` to a fresh receiver and
draining yields exactly that frame, byte for byte. -/
theorem round_trip (p : List Nat) (hlo : 1 ≤ p.length) (hhi : p.length ≤ 255) :
    (PacketReceiver.init.feedAll (encodeFrame p)).get_packets.1 = [encodeFrame p] := by
  unfold encodeFrame
  rw [PacketReceiver.feedAll_frame PacketReceiver.init p.length _ p rfl rfl hlo]
  simp [PacketReceiver.get_packets, PacketReceiver.init]

theorem round_trip_witness :
    (PacketReceiver.init.feedAll (encodeFrame [0x02])).get_packets.1
      = [encodeFrame [0x02]] :=
  round_trip [0x02] (by decide) (by decide)

/-- Claim C3: a structurally complete candidate `0xAA, L, payload, c` with
`L >= 1` is queued iff `c` equals the XOR of the length byte and the
payload bytes; on mismatch the candidate never shows up in the queue of
any later state, and in both cases the machine is back in `WAIT_SYNC`, so
a valid frame fed right afterwards is still recovered. -/
theorem checksum_accept_reject (L c : Nat) (p : List Nat)
    (hL : 1 ≤ L) (hp : p.length = L) :
    ((PacketReceiver.init.feedAll (0xAA :: L :: (p ++ [c]))).packets
        = if xorAll (L :: p) = c then [0xAA :: L :: (p ++ [c])] else []) ∧
    (PacketReceiver.init.feedAll (0xAA :: L :: (p ++ [c]))).state = .WAIT_SYNC ∧
    (xorAll (L :: p) ≠ c → ∀ bs : List Nat,
      (0xAA :: L :: (p ++ [c]))
        ∉ (PacketReceiver.init.feedAll ((0xAA :: L :: (p ++ [c])) ++ bs)).packets) ∧
    (∀ M q, 1 ≤ M → q.length = M →
      ((PacketReceiver.init.feedAll (0xAA :: L :: (p ++ [c]))).feedAll
          (0xAA :: M :: (q ++ [xorAll (M :: q)]))).packets
        = (PacketReceiver.init.feedAll (0xAA :: L :: (p ++ [c]))).packets
            ++ [0xAA :: M :: (q ++ [xorAll (M :: q)])]) := by
  have hmain := PacketReceiver.feedAll_frame PacketReceiver.init L c p rfl hp hL
  refine ⟨?_, ?_, ?_, ?_⟩
  · rw [hmain]
    simp [PacketReceiver.init]
  · rw [hmain]
  · intro hne bs hmem
    have hwf := PacketReceiver.mem_packets_wf _ _ hmem
    obtain ⟨-, -, h3⟩ := hwf
    rw [frame_getLastD, frame_mid] at h3
    exact hne h3.symm
  · intro M q hM hq
    have hs2 : (PacketReceiver.init.feedAll (0xAA :: L :: (p ++ [c]))).state
        = .WAIT_SYNC := by rw [hmain]
    rw [PacketReceiver.feedAll_frame _ M (xorAll (M :: q)) q hs2 hq hM]
    simp

theorem checksum_accept_reject_witness :
    (PacketReceiver.init.feedAll [0xAA, 0x01, 0x02, 0x03]).packets
      = [[0xAA, 0x01, 0x02, 0x03]] := by
  have h := (checksum_accept_reject 1 0x03 [0x02] (by decide) rfl).1
  rw [if_pos (show xorAll (1 :: [0x02]) = 0x03 from by decide)] at h
  exact h

/-- Claim C4 counterexample: `[0xAA, 0x00, 0x00]` is a correctly
checksummed wire frame, yet feeding it twice back-to-back to a fresh
receiver and draining does not return the two frames. -/
theorem back_to_back_frames_cex :
    validFrame [0xAA, 0x00, 0x00] ∧
    ¬ ((PacketReceiver.init.feedAll ([0xAA, 0x00, 0x00] ++ [0xAA, 0x00, 0x00])).get_packets.1
        = [[0xAA, 0x00, 0x00], [0xAA, 0x00, 0x00]]) :=
  ⟨⟨0, [], rfl, by decide⟩, by decide⟩

/-- Claim C4 (amended): for every two correctly checksummed wire frames
with nonzero length byte, feeding their bytes back-to-back with no
separator to a fresh receiver and draining once returns exactly the two
frames, in order. -/
theorem back_to_back_frames (f1 f2 : List Nat)
    (h1 : validFrame f1) (h2 : validFrame f2)
    (hL1 : f1.getD 1 0 ≠ 0) (hL2 : f2.getD 1 0 ≠ 0) :
    (PacketReceiver.init.feedAll (f1 ++ f2)).get_packets.1 = [f1, f2] := by
  obtain ⟨L1, p1, hp1, hf1⟩ := h1
  obtain ⟨L2, p2, hp2, hf2⟩ := h2
  subst hf1
  subst hf2
  have hL1n : 1 ≤ L1 := by
    simp only [List.getD_cons_succ, List.getD_cons_zero] at hL1
    omega
  have hL2n : 1 ≤ L2 := by
    simp only [List.getD_cons_succ, List.getD_cons_zero] at hL2
    omega
  rw [PacketReceiver.feedAll_append,
    PacketReceiver.feedAll_frame PacketReceiver.init L1 _ p1 rfl hp1 hL1n,
    PacketReceiver.feedAll_frame _ L2 _ p2 rfl hp2 hL2n]
  simp [PacketReceiver.get_packets, PacketReceiver.init]

theorem back_to_back_frames_witness :
    (PacketReceiver.init.feedAll ([0xAA, 0x01, 0x02, 0x03] ++ [0xAA, 0x01, 0xAA, 0xAB])).get_packets.1
      = [[0xAA, 0x01, 0x02, 0x03], [0xAA, 0x01, 0xAA, 0xAB]] :=
  back_to_back_frames [0xAA, 0x01, 0x02, 0x03] [0xAA, 0x01, 0xAA, 0xAB]
    ⟨1, [0x02], rfl, by decide⟩ ⟨1, [0xAA], rfl, by decide⟩ (by decide) (by decide)

/-- Claim C5: any finite sequence of non-`0xAA` noise bytes fed before a
valid frame leaves the drained output unchanged compared to feeding the
frame alone; the noise is discarded byte by byte with the machine staying
in `WAIT_SYNC`. -/
theorem noise_tolerance (noise f : List Nat)
    (hn : ∀ b ∈ noise, b ≠ 0xAA) (hf : validFrame f) :
    PacketReceiver.init.feedAll (noise ++ f) = PacketReceiver.init.feedAll f ∧
    PacketReceiver.init.feedAll noise = PacketReceiver.init := by
  have h0 : PacketReceiver.init.feedAll noise = PacketReceiver.init :=
    PacketReceiver.feedAll_nonsync PacketReceiver.init noise rfl hn
  exact ⟨by rw [PacketReceiver.feedAll_append, h0], h0⟩

theorem noise_tolerance_witness :
    PacketReceiver.init.feedAll ([0x00, 0xFF] ++ [0xAA, 0x01, 0x02, 0x03])
      = PacketReceiver.init.feedAll [0xAA, 0x01, 0x02, 0x03] :=
  (noise_tolerance [0x00, 0xFF] [0xAA, 0x01, 0x02, 0x03] (by decide)
    ⟨1, [0x02], rfl, by decide⟩).1

/-- Claim C6: once past `WAIT_SYNC`, a `0xAA` byte in the length or
payload position is consumed as ordinary field data and never restarts
frame detection; concretely `0xAA 0x01 0xAA 0xAB` drains as the single
frame with length byte 1 and payload `[0xAA]`. -/
theorem embedded_sync_as_data :
    (∀ r : PacketReceiver, r.state = .WAIT_LENGTH →
      r.feed 0xAA = { r with length := 0xAA, data := r.data ++ [0xAA], state := .WAIT_DATA }) ∧
    (∀ r : PacketReceiver, r.state = .WAIT_DATA →
      (r.feed 0xAA).data = r.data ++ [0xAA] ∧ (r.feed 0xAA).state ≠ .WAIT_LENGTH) ∧
    (PacketReceiver.init.feedAll [0xAA, 0x01, 0xAA, 0xAB]).get_packets.1
      = [[0xAA, 0x01, 0xAA, 0xAB]] := by
  refine ⟨?_, ?_, by decide⟩
  · intro r hs
    simp [PacketReceiver.feed, hs]
  · intro r hs
    constructor
    · simp only [PacketReceiver.feed, hs]
      split_ifs <;> rfl
    · simp only [PacketReceiver.feed, hs]
      split_ifs <;> simp

theorem embedded_sync_as_data_witness :
    (PacketReceiver.mk .WAIT_LENGTH 0 [0xAA] []).feed 0xAA
        = PacketReceiver.mk .WAIT_DATA 0xAA [0xAA, 0xAA] [] ∧
    ((PacketReceiver.mk .WAIT_DATA 1 [0xAA, 0x01] []).feed 0xAA).data
        = [0xAA, 0x01] ++ [0xAA] ∧
    (PacketReceiver.init.feedAll [0xAA, 0x01, 0xAA, 0xAB]).get_packets.1
      = [[0xAA, 0x01, 0xAA, 0xAB]] :=
  ⟨embedded_sync_as_data.1 (PacketReceiver.mk .WAIT_LENGTH 0 [0xAA] []) rfl,
   (embedded_sync_as_data.2.1 (PacketReceiver.mk .WAIT_DATA 1 [0xAA, 0x01] []) rfl).1,
   embedded_sync_as_data.2.2⟩

/-- Claim C7: `feed` is a total function on every receiver state and every
byte (in the embedding it is a total Lean function, so it has no error
return and raises nothing); its only effect on the output queue is to
leave it unchanged or to append the single frame just completed, and any
appended frame carries a checksum byte equal to the XOR of the bytes
between the sync byte and itself. -/
theorem feed_total_effects (r : PacketReceiver) (b : Nat) :
    (r.feed b).packets = r.packets ∨
    ((r.feed b).packets = r.packets ++ [(r.feed b).data] ∧
      (r.feed b).data.getLastD 0 = xorAll (((r.feed b).data.drop 1).dropLast)) := by
  cases hst : r.state with
  | WAIT_SYNC =>
      left
      simp only [PacketReceiver.feed, hst]
      split_ifs <;> rfl
  | WAIT_LENGTH =>
      left
      simp [PacketReceiver.feed, hst]
  | WAIT_DATA =>
      left
      simp only [PacketReceiver.feed, hst]
      split_ifs <;> rfl
  | WAIT_CRC =>
      by_cases hc : xorAll ((r.data ++ [b]).tail.dropLast) = b
      · right
        have hfe : r.feed b = { r with state := .WAIT_SYNC, data := r.data ++ [b], packets := r.packets ++ [r.data ++ [b]] } := by
          simp [PacketReceiver.feed, hst, hc]
        rw [hfe]
        refine ⟨rfl, ?_⟩
        rw [List.drop_one, hc]
        simp
      · left
        have hfe : r.feed b = { r with state := .WAIT_SYNC, data := r.data ++ [b] } := by
          simp [PacketReceiver.feed, hst, hc]
        rw [hfe]

/-- Claim C8: `get_packets` returns exactly the frames completed since the
last drain, in completion order, and clears the queue: a second drain with
no intervening feed returns nothing, and after a drain the packets
produced by any further feeding are exactly the new completions, so no
frame is handed out by two different drains. -/
theorem drain_spec (r : PacketReceiver) (bs : List Nat) :
    (r.get_packets).1 = r.packets ∧
    ((r.get_packets).2.get_packets).1 = [] ∧
    (r.feedAll bs).packets
      = r.packets ++ (((r.get_packets).2).feedAll bs).packets := by
  refine ⟨rfl, rfl, ?_⟩
  cases r with
  | mk s n d P =>
      rw [show ((PacketReceiver.mk s n d P).get_packets).2 = PacketReceiver.mk s n d []
        from rfl]
      rw [PacketReceiver.feedAll_split s n d P bs]

/-- Claim C9: `parse_packet` inverts `build_packet`: for every command
byte and every payload of at most 254 bytes, parsing the built packet
returns the command and payload rather than `None`. -/
theorem build_parse_roundtrip (cmd : Nat) (payload : List Nat)
    (hc : cmd ≤ 255) (hb : ∀ x ∈ payload, x ≤ 255) (hl : payload.length ≤ 254) :
    parse_packet (build_packet cmd payload) = some (cmd, payload) := by
  have hbuild : build_packet cmd payload
      = 0xAA :: (payload.length + 1) :: cmd ::
          (payload ++ [xorAll ((payload.length + 1) :: cmd :: payload)]) := by
    simp [build_packet]
  rw [hbuild]
  unfold parse_packet
  rw [if_neg (by simp), if_neg (by simp), if_neg (by simp),
    if_neg (by rw [frame_mid2, frame_getLastD2]; simp)]
  rw [show ((0xAA :: (payload.length + 1) :: cmd ::
      (payload ++ [xorAll ((payload.length + 1) :: cmd :: payload)])).drop 3)
      = payload ++ [xorAll ((payload.length + 1) :: cmd :: payload)] from rfl,
    List.dropLast_concat]
  simp

theorem build_parse_roundtrip_witness :
    parse_packet (build_packet 0x05 [0x01, 0x02]) = some (0x05, [0x01, 0x02]) :=
  build_parse_roundtrip 0x05 [0x01, 0x02] (by decide) (by decide) (by decide)

/-- Claim C10: after any finite feed sequence on a fresh receiver, every
frame in the output queue starts with `0xAA`, has total length equal to
its length byte plus 3, and ends in the XOR of the bytes between the sync
byte and the final byte. -/
theorem queued_frames_wellformed (bs f : List Nat)
    (hf : f ∈ (PacketReceiver.init.feedAll bs).packets) : wfFrame f :=
  PacketReceiver.mem_packets_wf bs f hf

theorem queued_frames_wellformed_witness :
    [0xAA, 0x01, 0x02, 0x03] ∈ (PacketReceiver.init.feedAll [0xAA, 0x01, 0x02, 0x03]).packets ∧
    wfFrame [0xAA, 0x01, 0x02, 0x03] :=
  ⟨by decide,
   queued_frames_wellformed [0xAA, 0x01, 0x02, 0x03] [0xAA, 0x01, 0x02, 0x03] (by decide)⟩
